import Mathlib

/-!
Verification of the header-reconciliation and row-consolidation pipeline of
src/app.py (a pandas/streamlit batch consolidator).  Tables are embedded as a
list of column labels plus a list of rows, where each cell is `Option String`:
`none` models a pandas missing value (NaN), `some s` a text cell.  Every file
is read with dtype=str, so all data columns are object/text dtype.
-/

namespace App

/-- A cell of a pandas DataFrame read with dtype=str: `none` is NaN. -/
abbrev Cell := Option String

/-- A DataFrame: ordered column labels and rows (each row lists the cells in
column order). -/
structure DF where
  cols : List String
  rows : List (List Cell)
deriving DecidableEq

/-! ### normalize_header

Python: `" ".join(name.strip().split())` guarded by `isinstance(name, str)`.
`str.split()` with no argument splits on runs of whitespace and discards empty
tokens (so the preceding `.strip()` is absorbed by it); `" ".join` glues the
tokens back with single spaces. -/

/-- Whitespace-run tokenizer for `str.split()`: the first argument carries the
(reversed) token currently being scanned, if any. -/
def pyWordsAux : Option (List Char) → List Char → List (List Char)
  | none, [] => []
  | some tok, [] => [tok.reverse]
  | none, c :: cs =>
      if c.isWhitespace then pyWordsAux none cs else pyWordsAux (some [c]) cs
  | some tok, c :: cs =>
      if c.isWhitespace then tok.reverse :: pyWordsAux none cs
      else pyWordsAux (some (c :: tok)) cs

/-- Python `s.split()`: maximal runs of non-whitespace characters. -/
def pyWords (cs : List Char) : List (List Char) := pyWordsAux none cs

/-- Python `" ".join(tokens)`, at the character level. -/
def joinWords : List (List Char) → List Char
  | [] => []
  | [w] => w
  | w :: ws => w ++ ' ' :: joinWords ws

/-- The `normalize_header` of app.py on an actual string: trim plus collapse of
internal whitespace runs to a single space. -/
def normalize_header (s : String) : String := ⟨joinWords (pyWords s.data)⟩

/-- Function `normalize_header` including the `isinstance(name, str)` guard: a
non-string label (modelled by `none`) yields the empty string. -/
def normalize_header_any : Option String → String
  | none => ""
  | some s => normalize_header s

/-- Python `str.strip()`: drop leading and trailing whitespace. -/
def pyStrip (s : String) : String :=
  ⟨((s.data.dropWhile Char.isWhitespace).reverse.dropWhile Char.isWhitespace).reverse⟩

/-- pandas `astype(str)` on one cell: a NaN prints as the string "nan". -/
def astypeStr : Cell → String
  | none => "nan"
  | some s => s

/-! ### The canonical schema of app.py (exact strings, including trailing
spaces present in the source). -/

def HEADERS : List String :=
  ["NUMERO OBRA ICONSTRUYE",
   "MES (MMM-AA)",
   "APELLIDO PATERNO, APELLIDO MATERNO Y NOMBRES DEL TRABAJADOR",
   "RUT TRABAJADOR (SIN PUNTOS Y CON GUION)",
   "DIAS TRABAJADOS ",
   "NUMERO DE CONTRATO",
   "RAZON SOCIAL EMPRESA SUBCONTRATISTA ",
   "RUT EMPRESA SUBCONTRATISTA (SIN PUNTOS Y CON GUION)",
   "RAZON SOCIAL EMPRESA CONTRATISTA ",
   "RUT EMPRESA CONTRATISTA (SIN PUNTOS Y CON GUION)"]

def ORDERED_COLS : List String := "File name" :: HEADERS

/-! ### Positional lookup helpers for labelled rows. -/

/-- Index of the first occurrence of a label (length of the list if absent). -/
def colIdx : List String → String → Nat
  | [], _ => 0
  | c :: cs, x => if c = x then 0 else colIdx cs x + 1

/-- The cell of row `r` (laid out along `cols`) under label `x`. -/
def cellAt (cols : List String) (r : List Cell) (x : String) : Cell :=
  (r.get? (colIdx cols x)).getD none

/-- Column `x` of a DataFrame as a series (one cell per row). -/
def DF.getCol (d : DF) (x : String) : List Cell :=
  d.rows.map (fun r => cellAt d.cols r x)

/-- pandas `d[x] = series`.  Assigning to a frame with no columns adopts the
series (creating its rows); otherwise an existing column is overwritten in
place and a new label is appended on the right, values aligned row by row. -/
def DF.assignSeries (d : DF) (x : String) (vs : List Cell) : DF :=
  if d.cols.isEmpty then ⟨[x], vs.map (fun v => [v])⟩
  else if x ∈ d.cols then
    ⟨d.cols, (d.rows.zip vs).map (fun p => p.1.set (colIdx d.cols x) p.2)⟩
  else ⟨d.cols ++ [x], (d.rows.zip vs).map (fun p => p.1 ++ [p.2])⟩

/-- pandas `d[x] = scalar`: broadcast to every existing row (on a frame with
no rows this creates an empty column). -/
def DF.assignScalar (d : DF) (x : String) (v : Cell) : DF :=
  if x ∈ d.cols then ⟨d.cols, d.rows.map (fun r => r.set (colIdx d.cols x) v)⟩
  else ⟨d.cols ++ [x], d.rows.map (fun r => r ++ [v])⟩

/-- pandas `d[cs]` column selection/reordering (in app.py only applied when
every requested label is present exactly once). -/
def DF.select (d : DF) (cs : List String) : DF :=
  ⟨cs, d.rows.map (fun r => cs.map (fun c => cellAt d.cols r c))⟩

/-! ### trim_text_df and row validation -/

/-- The `trim_text_df` of app.py: every column of the frames it is applied to is
object/text dtype (read with dtype=str or filled with string literals), so the
dtype guard holds for each column and `astype(str).str.strip()` is applied to
every cell.  Note `astype(str)` turns a NaN into the literal string "nan". -/
def trim_text_df (d : DF) : DF :=
  ⟨d.cols, d.rows.map (fun r => r.map (fun x => some (pyStrip (astypeStr x))))⟩

/-- One entry of `mask_valid` of app.py: `notna() & (ser != "")`.  pandas
compares NaN as unequal to "", so the conjunction keeps a cell iff it is a
non-NaN, non-empty string. -/
def mask_valid : Cell → Bool
  | none => false
  | some s => s != ""

/-- Step 7 of the per-file loop: trim every text cell, then keep the rows
whose "NUMERO OBRA ICONSTRUYE" entry passes `mask_valid`; also return the
number of removed rows. -/
def validate (tmp : DF) : DF × Nat :=
  let t := trim_text_df tmp
  let kept := t.rows.filter (fun r => mask_valid (cellAt t.cols r "NUMERO OBRA ICONSTRUYE"))
  (⟨t.cols, kept⟩, t.rows.length - kept.length)

/-! ### Header reconciliation (steps 2-6 of the per-file loop) -/

/-- The `backmap` of app.py: a dict comprehension over HEADERS keyed by the
normalized header, so on collisions the last header wins; lookup of a key
that is not the normalization of any canonical header is a KeyError (never
reached; modelled by returning the key itself). -/
def backmap (x : String) : String :=
  ((HEADERS.filter (fun h => normalize_header h = x)).getLast?).getD x

/-- The loop `for c in present_norm: tmp[backmap[c]] = df[c]`.  When the label
`c` occurs more than once in `df` (two raw headers normalized to the same
name), `df[c]` is a two-column frame and assigning it to the single column
`tmp[backmap[c]]` raises a ValueError; the error propagates out of the
per-file body. -/
def buildTmp (df : DF) : List String → DF → Except String DF
  | [], tmp => .ok tmp
  | c :: cs, tmp =>
      if df.cols.count c = 1 then
        buildTmp df cs (tmp.assignSeries (backmap c) (df.getCol c))
      else
        .error ("Cannot set a DataFrame with multiple columns to the single column " ++ backmap c)

/-- Steps 2-6 of the per-file loop of app.py: rename every column to its
normalized header, copy the canonical columns that are present (by normalized
name) into a fresh frame under their canonical names, create the missing
canonical columns filled with "", add the provenance column holding the file
name, and reorder to `ORDERED_COLS`.  Returns the reconciled frame and the
list of missing canonical columns. -/
def reconcile (name : String) (src : DF) : Except String (DF × List String) :=
  let df : DF := ⟨src.cols.map normalize_header, src.rows⟩
  let norm_headers := HEADERS.map normalize_header
  let present_norm := norm_headers.filter (fun h => h ∈ df.cols)
  match buildTmp df present_norm ⟨[], []⟩ with
  | .error e => .error e
  | .ok tmp0 =>
    let missing := HEADERS.filter (fun h => h ∉ tmp0.cols)
    let tmp1 := missing.foldl (fun t m => t.assignScalar m (some "")) tmp0
    let tmp2 := tmp1.assignScalar "File name" (some name)
    .ok (tmp2.select ORDERED_COLS, missing)

/-- The whole try-body for one successfully read file: reconcile then
validate (an exception raised inside reconciliation propagates).  Returns the
surviving rows, the missing-column list and the number of discarded rows. -/
def process_file (name : String) (src : DF) : Except String (DF × List String × Nat) :=
  match reconcile name src with
  | .error e => .error e
  | .ok (tmp, missing) =>
    let v := validate tmp
    .ok (v.1, missing, v.2)

/-! ### The batch driver -/

/-- Outcome of reading one uploaded file (step 1): either a dtype=str frame or
the text of the exception the reader raised. -/
inductive ReadOutcome where
  | ok (src : DF)
  | err (msg : String)
deriving DecidableEq

/-- The accumulator initialisation of app.py:
`df_out = pd.DataFrame(columns=HEADERS)` followed by `df_out["File name"] = ""`
(which appends the provenance column on the right, with no rows). -/
def df_out_init : DF := DF.assignScalar ⟨HEADERS, []⟩ "File name" (some "")

/-- Row of frame `b` aligned to the label `c` (used by `pd_concat`): the cell
under `c` if `b` has that column, NaN otherwise. -/
def alignRow (srcCols : List String) (r : List Cell) (c : String) : Cell :=
  if c ∈ srcCols then cellAt srcCols r c else none

/-- pandas `pd.concat([a, b], ignore_index=True)` with sort=False: the result's
columns are `a`'s followed by the labels of `b` not already present (order of
first appearance), and the rows of both frames aligned to those labels. -/
def pd_concat (a b : DF) : DF :=
  let cols := a.cols ++ b.cols.filter (fun c => !(a.cols.contains c))
  ⟨cols,
   a.rows.map (fun r => cols.map (alignRow a.cols r)) ++
   b.rows.map (fun r => cols.map (alignRow b.cols r))⟩

/-- One iteration of the per-file loop: read errors and processing errors are
caught and logged (the accumulator is untouched); otherwise the discard
warning, the concatenation, and the missing-columns warning happen in source
order. -/
def step_file (st : DF × List String) (file : String × ReadOutcome) : DF × List String :=
  match file.2 with
  | .err e => (st.1, st.2 ++ [file.1 ++ ": ERROR al procesar -> " ++ e])
  | .ok src =>
    match process_file file.1 src with
    | .error e => (st.1, st.2 ++ [file.1 ++ ": ERROR al procesar -> " ++ e])
    | .ok (tv, missing, removed) =>
      let log1 := if 0 < removed then
          st.2 ++ [file.1 ++ ": " ++ toString removed ++ " filas descartadas sin NUMERO OBRA ICONSTRUYE"]
        else st.2
      let d2 := pd_concat st.1 tv
      let log2 := if missing = [] then log1
        else log1 ++ [file.1 ++ ": faltan columnas -> " ++ String.intercalate ", " missing]
      (d2, log2)

/-- The whole batch loop over the uploaded files: fold `step_file` starting
from the empty accumulator and the empty warnings log. -/
def run_batch (files : List (String × ReadOutcome)) : DF × List String :=
  files.foldl step_file (df_out_init, [])

/-! ### Export and sheet selection -/

/-- The worksheet written by `excel_to_bytes` / `to_excel(index=False)`: the
header row is the frame's column labels, followed by the data rows. -/
structure Sheet where
  header : List String
  body : List (List Cell)
deriving DecidableEq

/-- The `excel_to_bytes` of app.py, modelled up to xlsx encoding: one sheet whose
first row is the column labels and whose remaining rows are the data. -/
def excel_to_bytes (d : DF) : Sheet := ⟨d.cols, d.rows⟩

/-- The sheet choice made by `read_excel_sheet` of app.py: the preferred sheet
name if it occurs among the workbook's sheet names (exact match), else the
picker's choice when the picker is enabled, else the first sheet name. -/
def read_excel_sheet (prefer_sheet : String) (allow_sheet_picker : Bool)
    (picker_choice : String) (sheet_names : List String) : String :=
  if prefer_sheet ∈ sheet_names then prefer_sheet
  else if allow_sheet_picker then picker_choice
  else sheet_names.headD ""

/-! ### Derived views used by the theorems -/

/-- The rows one file contributes to the consolidated table, as they appear
there (aligned to the accumulator's column order `HEADERS ++ ["File name"]`);
a file whose processing raises contributes nothing. -/
def file_contribution (name : String) (src : DF) : List (List Cell) :=
  match process_file name src with
  | .error _ => []
  | .ok (tv, _, _) =>
      tv.rows.map (fun r => (HEADERS ++ ["File name"]).map (alignRow tv.cols r))

/-- The rows contributed by one read outcome. -/
def file_rows (name : String) (out : ReadOutcome) : List (List Cell) :=
  match out with
  | .err _ => []
  | .ok src => file_contribution name src

/-- The warning-log lines contributed by one file. -/
def file_log (name : String) (out : ReadOutcome) : List String :=
  match out with
  | .err e => [name ++ ": ERROR al procesar -> " ++ e]
  | .ok src =>
    match process_file name src with
    | .error e => [name ++ ": ERROR al procesar -> " ++ e]
    | .ok (_, missing, removed) =>
      (if 0 < removed then
          [name ++ ": " ++ toString removed ++ " filas descartadas sin NUMERO OBRA ICONSTRUYE"]
        else [])
      ++ (if missing = [] then []
          else [name ++ ": faltan columnas -> " ++ String.intercalate ", " missing])

/-- Log line `l` names the file `n`: it begins with the text `n ++ ":"`. -/
def names_file (n l : String) : Bool := List.isPrefixOf (n ++ ":").data l.data

/-! ## Lemmas about the tokenizer behind normalize_header -/

/-- Splitting at a whitespace character: the tokenizer flushes the pending
token there, so the output is the words to the left followed by the words to
the right. -/
lemma pyWordsAux_append_ws (c : Char) (hc : c.isWhitespace = true) :
    ∀ (u : List Char) (st : Option (List Char)) (v : List Char),
      pyWordsAux st (u ++ c :: v) = pyWordsAux st u ++ pyWordsAux none v := by
  intro u
  induction u with
  | nil =>
    intro st v
    cases st with
    | none => simp [pyWordsAux, hc]
    | some tok => simp [pyWordsAux, hc]
  | cons a u ih =>
    intro st v
    cases st with
    | none =>
      by_cases ha : a.isWhitespace = true
      · simp [pyWordsAux, ha, ih]
      · simp only [Bool.not_eq_true] at ha
        simp [pyWordsAux, ha, ih]
    | some tok =>
      by_cases ha : a.isWhitespace = true
      · simp [pyWordsAux, ha, ih]
      · simp only [Bool.not_eq_true] at ha
        simp [pyWordsAux, ha, ih]

/-- Scanning a run of non-whitespace characters extends the pending token to
its end. -/
lemma pyWordsAux_token :
    ∀ (w : List Char) (tok : List Char), (∀ c ∈ w, c.isWhitespace = false) →
      pyWordsAux (some tok) w = [tok.reverse ++ w] := by
  intro w
  induction w with
  | nil => intro tok _; simp [pyWordsAux]
  | cons c w ih =>
    intro tok h
    have hc : c.isWhitespace = false := h c (by simp)
    have := ih (c :: tok) (fun d hd => h d (by simp [hd]))
    simp [pyWordsAux, hc, this]

/-- A nonempty all-non-whitespace list is a single word. -/
lemma pyWords_single (w : List Char) (hne : w ≠ [])
    (hw : ∀ c ∈ w, c.isWhitespace = false) : pyWords w = [w] := by
  cases w with
  | nil => exact absurd rfl hne
  | cons a w =>
    have ha : a.isWhitespace = false := hw a (by simp)
    have := pyWordsAux_token w [a] (fun d hd => hw d (by simp [hd]))
    simp [pyWords, pyWordsAux, ha, this]

/-- Every word produced by the tokenizer is nonempty and free of whitespace
characters. -/
lemma pyWordsAux_valid :
    ∀ (cs : List Char) (tok : List Char), (∀ c ∈ tok, c.isWhitespace = false) →
      (∀ w ∈ pyWordsAux none cs, w ≠ [] ∧ ∀ c ∈ w, c.isWhitespace = false) ∧
      (tok ≠ [] → ∀ w ∈ pyWordsAux (some tok) cs,
          w ≠ [] ∧ ∀ c ∈ w, c.isWhitespace = false) := by
  intro cs
  induction cs with
  | nil =>
    intro tok htok
    refine ⟨by simp [pyWordsAux], ?_⟩
    intro hne w hw
    simp [pyWordsAux] at hw
    subst hw
    exact ⟨by simpa using hne, fun c hcw => htok c (List.mem_reverse.mp hcw)⟩
  | cons c cs ih =>
    intro tok htok
    constructor
    · by_cases hc : c.isWhitespace = true
      · intro w hw
        rw [show pyWordsAux none (c :: cs) = pyWordsAux none cs by simp [pyWordsAux, hc]] at hw
        exact (ih tok htok).1 w hw
      · simp only [Bool.not_eq_true] at hc
        intro w hw
        rw [show pyWordsAux none (c :: cs) = pyWordsAux (some [c]) cs by
              simp [pyWordsAux, hc]] at hw
        exact (ih [c] (by simpa using hc)).2 (by simp) w hw
    · intro hne w hw
      by_cases hc : c.isWhitespace = true
      · rw [show pyWordsAux (some tok) (c :: cs)
              = tok.reverse :: pyWordsAux none cs by simp [pyWordsAux, hc]] at hw
        rcases List.mem_cons.mp hw with hw | hw
        · subst hw
          exact ⟨by simpa using hne, fun d hd => htok d (List.mem_reverse.mp hd)⟩
        · exact (ih tok htok).1 w hw
      · simp only [Bool.not_eq_true] at hc
        rw [show pyWordsAux (some tok) (c :: cs) = pyWordsAux (some (c :: tok)) cs by
              simp [pyWordsAux, hc]] at hw
        refine (ih (c :: tok) ?_).2 (by simp) w hw
        intro d hd
        rcases List.mem_cons.mp hd with h | h
        · subst h; exact hc
        · exact htok d h

/-- Every word of `pyWords` is nonempty and whitespace-free. -/
lemma pyWords_valid (cs : List Char) :
    ∀ w ∈ pyWords cs, w ≠ [] ∧ ∀ c ∈ w, c.isWhitespace = false :=
  (pyWordsAux_valid cs [] (by simp)).1

/-- Tokenizing a single-space join of valid words recovers the words. -/
lemma pyWords_joinWords :
    ∀ (ws : List (List Char)),
      (∀ w ∈ ws, w ≠ [] ∧ ∀ c ∈ w, c.isWhitespace = false) →
      pyWords (joinWords ws) = ws := by
  intro ws
  induction ws with
  | nil => intro _; rfl
  | cons w ws ih =>
    intro h
    cases ws with
    | nil =>
      have := h w (by simp)
      simpa [joinWords] using pyWords_single w this.1 this.2
    | cons w2 ws2 =>
      have hw := h w (by simp)
      have hrest : pyWords (joinWords (w2 :: ws2)) = w2 :: ws2 :=
        ih (fun x hx => h x (by simp [hx]))
      have hsplit := pyWordsAux_append_ws ' ' rfl w none (joinWords (w2 :: ws2))
      have hw1 : pyWordsAux none w = [w] := pyWords_single w hw.1 hw.2
      simp only [joinWords]
      simp [pyWords] at hrest hw1 ⊢
      rw [hsplit, hw1, hrest]
      simp

/-- Dropping a leading whitespace character does not change the tokens. -/
lemma pyWords_cons_ws (c : Char) (hc : c.isWhitespace = true) (cs : List Char) :
    pyWords (c :: cs) = pyWords cs := by
  simp [pyWords, pyWordsAux, hc]

/-- C8: `normalize_header` returns empty text for a non-text label; on text it
strips surrounding whitespace and collapses internal whitespace runs, so it is
invariant under adding leading/trailing whitespace and under doubling an
internal whitespace character (two headers differing only in such whitespace
normalize identically), and it is idempotent (an already-normalized header is
returned unchanged). -/
theorem C8_normalize_contract :
    normalize_header_any none = "" ∧
    (∀ (s : String) (c : Char), c.isWhitespace = true →
        normalize_header ⟨c :: s.data⟩ = normalize_header s ∧
        normalize_header ⟨s.data ++ [c]⟩ = normalize_header s) ∧
    (∀ (u v : List Char) (c : Char), c.isWhitespace = true →
        normalize_header ⟨u ++ c :: c :: v⟩ = normalize_header ⟨u ++ c :: v⟩) ∧
    (∀ s : String, normalize_header (normalize_header s) = normalize_header s) := by
  refine ⟨rfl, ?_, ?_, ?_⟩
  · intro s c hc
    constructor
    · show String.mk _ = String.mk _
      rw [show (String.mk (c :: s.data)).data = c :: s.data from rfl,
        pyWords_cons_ws c hc]
    · show String.mk _ = String.mk _
      rw [show (String.mk (s.data ++ [c])).data = s.data ++ [c] from rfl]
      show String.mk (joinWords (pyWordsAux none (s.data ++ c :: []))) = _
      rw [pyWordsAux_append_ws c hc s.data none []]
      simp [pyWords, pyWordsAux]
  · intro u v c hc
    show String.mk _ = String.mk _
    rw [show (String.mk (u ++ c :: c :: v)).data = u ++ c :: c :: v from rfl,
      show (String.mk (u ++ c :: v)).data = u ++ c :: v from rfl]
    show String.mk (joinWords (pyWordsAux none (u ++ c :: c :: v)))
        = String.mk (joinWords (pyWordsAux none (u ++ c :: v)))
    rw [pyWordsAux_append_ws c hc u none (c :: v),
      pyWordsAux_append_ws c hc u none v]
    rw [show pyWordsAux none (c :: v) = pyWordsAux none v by simp [pyWordsAux, hc]]
  · intro s
    show String.mk _ = String.mk _
    rw [show (normalize_header s).data = joinWords (pyWords s.data) from rfl]
    rw [show pyWords (joinWords (pyWords s.data)) = pyWords s.data from
      pyWords_joinWords (pyWords s.data) (pyWords_valid s.data)]

/-- Witness for C8 at concrete inputs: a leading space, a trailing space and a
doubled internal space all leave the normalized header unchanged. -/
theorem C8_witness :
    normalize_header ⟨' ' :: "DIAS  TRABAJADOS".data⟩ = normalize_header "DIAS  TRABAJADOS" ∧
    normalize_header ⟨"DIAS TRABAJADOS".data ++ [' ']⟩ = normalize_header "DIAS TRABAJADOS" ∧
    normalize_header ⟨"DIAS".data ++ ' ' :: ' ' :: "TRABAJADOS".data⟩
      = normalize_header ⟨"DIAS".data ++ ' ' :: "TRABAJADOS".data⟩ :=
  ⟨(C8_normalize_contract.2.1 "DIAS  TRABAJADOS" ' ' rfl).1,
   (C8_normalize_contract.2.1 "DIAS TRABAJADOS" ' ' rfl).2,
   C8_normalize_contract.2.2.1 "DIAS".data "TRABAJADOS".data ' ' rfl⟩

/-- C9: the sheet actually read is the preferred name whenever it occurs among
the workbook's sheet names (even if not first); otherwise the picker's choice
when the picker is enabled, and the first sheet name when it is disabled. -/
theorem C9_sheet_selection (p pick : String) (a : Bool) (sheet_names : List String) :
    (p ∈ sheet_names → read_excel_sheet p a pick sheet_names = p) ∧
    (p ∉ sheet_names → a = true → read_excel_sheet p a pick sheet_names = pick) ∧
    (p ∉ sheet_names → a = false → ∀ h : sheet_names ≠ [],
        read_excel_sheet p a pick sheet_names = sheet_names.head h) := by
  refine ⟨?_, ?_, ?_⟩
  · intro hmem
    simp [read_excel_sheet, hmem]
  · intro hmem ha
    simp [read_excel_sheet, hmem, ha]
  · intro hmem ha h
    cases sheet_names with
    | nil => exact absurd rfl h
    | cons s rest => simp [read_excel_sheet, hmem, ha, List.headD]

/-- Witness for C9: the two workbook scenarios of the specification: sheets
["Sheet1", "BBDD"] with preferred "BBDD" select "BBDD" even though it is not
first, and sheets ["Sheet1", "Sheet2"] with "BBDD" absent and the picker
disabled select "Sheet1". -/
theorem C9_witness :
    read_excel_sheet "BBDD" false "pick" ["Sheet1", "BBDD"] = "BBDD" ∧
    read_excel_sheet "BBDD" false "pick" ["Sheet1", "Sheet2"] = "Sheet1" :=
  ⟨(C9_sheet_selection "BBDD" "pick" false ["Sheet1", "BBDD"]).1 (by decide),
   ((C9_sheet_selection "BBDD" "pick" false ["Sheet1", "Sheet2"]).2.2
      (by decide) rfl (by decide)).trans rfl⟩

/-! ## Lemmas about positional lookup in labelled rows -/

lemma colIdx_of_not_mem {cols : List String} {x : String} (h : x ∉ cols) :
    colIdx cols x = cols.length := by
  induction cols with
  | nil => rfl
  | cons c cs ih =>
    have hcx : ¬ c = x := fun he => h (by simp [he])
    simp [colIdx, hcx, ih (fun hx => h (by simp [hx]))]

lemma colIdx_lt_of_mem {cols : List String} {x : String} (h : x ∈ cols) :
    colIdx cols x < cols.length := by
  induction cols with
  | nil => simp at h
  | cons c cs ih =>
    by_cases hcx : c = x
    · simp [colIdx, hcx]
    · have : x ∈ cs := by
        rcases List.mem_cons.mp h with h1 | h1
        · exact absurd h1.symm hcx
        · exact h1
      simp only [colIdx, hcx, if_false]
      exact Nat.succ_lt_succ (ih this)

lemma colIdx_append_left {cols1 cols2 : List String} {x : String} (h : x ∈ cols1) :
    colIdx (cols1 ++ cols2) x = colIdx cols1 x := by
  induction cols1 with
  | nil => simp at h
  | cons c cs ih =>
    by_cases hcx : c = x
    · simp [colIdx, hcx]
    · have : x ∈ cs := by
        rcases List.mem_cons.mp h with h1 | h1
        · exact absurd h1.symm hcx
        · exact h1
      simp [colIdx, hcx, ih this]

lemma colIdx_append_right {cols1 cols2 : List String} {x : String} (h : x ∉ cols1) :
    colIdx (cols1 ++ cols2) x = cols1.length + colIdx cols2 x := by
  induction cols1 with
  | nil => simp
  | cons c cs ih =>
    have hcx : ¬ c = x := fun he => h (by simp [he])
    simp [colIdx, hcx, ih (fun hx => h (by simp [hx]))]
    omega

/-- Looking a present label up in a row laid out along `cols1 ++ cols2` stays
inside the left block. -/
lemma cellAt_append_left {cols1 cols2 : List String} {r1 r2 : List Cell} {x : String}
    (hm : x ∈ cols1) (hlen : r1.length = cols1.length) :
    cellAt (cols1 ++ cols2) (r1 ++ r2) x = cellAt cols1 r1 x := by
  unfold cellAt
  rw [colIdx_append_left hm, List.get?_eq_getElem?, List.get?_eq_getElem?,
    List.getElem?_append_left (by rw [hlen]; exact colIdx_lt_of_mem hm)]

/-- Looking an absent-on-the-left label up falls through to the right block. -/
lemma cellAt_append_right {cols1 cols2 : List String} {r1 r2 : List Cell} {x : String}
    (hm : x ∉ cols1) (hlen : r1.length = cols1.length) :
    cellAt (cols1 ++ cols2) (r1 ++ r2) x = cellAt cols2 r2 x := by
  have hi : colIdx (cols1 ++ cols2) x = r1.length + colIdx cols2 x := by
    rw [colIdx_append_right hm, hlen]
  unfold cellAt
  rw [hi, List.get?_eq_getElem?, List.get?_eq_getElem?,
    List.getElem?_append_right (Nat.le_add_right _ _), Nat.add_sub_cancel_left]

/-- Lookup of a label in a row built by mapping a function over the labels
themselves gives the function's value at the label. -/
lemma cellAt_map_labels {cs : List String} {g : String → Cell} {x : String}
    (h : x ∈ cs) : cellAt cs (cs.map g) x = g x := by
  induction cs with
  | nil => simp at h
  | cons c cs ih =>
    by_cases hcx : c = x
    · subst hcx
      simp [cellAt, colIdx]
    · have : x ∈ cs := by
        rcases List.mem_cons.mp h with h1 | h1
        · exact absurd h1.symm hcx
        · exact h1
      simpa [cellAt, colIdx, hcx] using ih this

/-- Lookup of `f c` in a row `l.map g` laid out along labels `l.map f`, when
`f` identifies `c` uniquely inside `l`, gives `g c`. -/
lemma cellAt_map_map {α : Type} {l : List α} {f : α → String} {g : α → Cell} {c : α}
    (hmem : c ∈ l) (hinj : ∀ a ∈ l, f a = f c → a = c) :
    cellAt (l.map f) (l.map g) (f c) = g c := by
  induction l with
  | nil => simp at hmem
  | cons a l ih =>
    by_cases hfa : f a = f c
    · have : a = c := hinj a (by simp) hfa
      subst this
      simp [cellAt, colIdx, hfa]
    · have hc : c ∈ l := by
        rcases List.mem_cons.mp hmem with h1 | h1
        · exact absurd (congrArg f h1.symm) hfa
        · exact h1
      simpa [cellAt, colIdx, hfa] using
        ih hc (fun b hb he => hinj b (by simp [hb]) he)

/-- Pointwise cell transforms commute with lookup of an in-range label. -/
lemma cellAt_map_row {cols : List String} {r : List Cell} {f : Cell → Cell} {x : String}
    (hm : x ∈ cols) (hlen : r.length = cols.length) :
    cellAt cols (r.map f) x = f (cellAt cols r x) := by
  have hi : colIdx cols x < r.length := by rw [hlen]; exact colIdx_lt_of_mem hm
  obtain ⟨a, ha⟩ : ∃ a, r.get? (colIdx cols x) = some a :=
    ⟨r.get ⟨_, hi⟩, List.get?_eq_get hi⟩
  unfold cellAt
  rw [List.get?_eq_getElem?, List.getElem?_map, ← List.get?_eq_getElem?, ha]
  rfl

/-- Realigning a well-formed row to its own (duplicate-free) labels is the
identity. -/
lemma map_alignRow_self {cols : List String} {r : List Cell}
    (hnd : cols.Nodup) (hlen : r.length = cols.length) :
    cols.map (alignRow cols r) = r := by
  induction cols generalizing r with
  | nil => cases r with
    | nil => rfl
    | cons a t => simp at hlen
  | cons c cs ih =>
    cases r with
    | nil => simp at hlen
    | cons a t =>
      have hnotin : c ∉ cs := (List.nodup_cons.mp hnd).1
      have hhead : alignRow (c :: cs) (a :: t) c = a := by
        simp [alignRow, cellAt, colIdx]
      have htail : cs.map (alignRow (c :: cs) (a :: t)) = cs.map (alignRow cs t) := by
        refine List.map_congr_left ?_
        intro x hx
        have hxc : ¬ c = x := fun he => hnotin (he ▸ hx)
        simp [alignRow, hx, cellAt, colIdx, hxc]
      simp only [List.map_cons, hhead, htail]
      rw [ih (List.nodup_cons.mp hnd).2 (by simpa using hlen)]

/-! ## Concrete facts about the canonical schema (established by computation) -/

lemma HEADERS_nodup : HEADERS.Nodup := by decide

lemma norm_headers_nodup : (HEADERS.map normalize_header).Nodup := by decide

/-- Applying `backmap` to every normalized canonical header recovers the
canonical headers (the schema has no normalization collisions). -/
lemma backmap_norm_headers : (HEADERS.map normalize_header).map backmap = HEADERS := by
  decide

lemma backmap_of_norm : ∀ h ∈ HEADERS, backmap (normalize_header h) = h := by decide

lemma norm_of_backmap :
    ∀ c ∈ HEADERS.map normalize_header, normalize_header (backmap c) = c := by decide

lemma backmap_mem_headers :
    ∀ c ∈ HEADERS.map normalize_header, backmap c ∈ HEADERS := by decide

lemma filename_not_mem_headers : "File name" ∉ HEADERS := by decide

lemma filename_mem_ordered : "File name" ∈ ORDERED_COLS := by decide

lemma required_mem_ordered : "NUMERO OBRA ICONSTRUYE" ∈ ORDERED_COLS := by decide

lemma ordered_cols_nodup : ORDERED_COLS.Nodup := by decide

/-! ## Characterization of the incremental tmp construction -/

/-- The source-normalized view of a frame and the list of normalized canonical
headers present in it, exactly as computed inside the per-file loop. -/
def norm_cols (src : DF) : List String := src.cols.map normalize_header

def present_norm (src : DF) : List String :=
  (HEADERS.map normalize_header).filter (fun h => h ∈ norm_cols src)

lemma isEmpty_eq_false_of_ne_nil {ns : List String} (h : ns ≠ []) :
    ns.isEmpty = false := by
  cases ns with
  | nil => exact absurd rfl h
  | cons a t => rfl

/-- Loop `buildTmp` succeeds exactly when every requested (present) normalized
label occurs exactly once among the renamed columns. -/
lemma buildTmp_ok_iff (df : DF) :
    ∀ (cs : List String) (tmp : DF),
      (∃ out, buildTmp df cs tmp = .ok out) ↔ ∀ c ∈ cs, df.cols.count c = 1 := by
  intro cs
  induction cs with
  | nil => intro tmp; simp [buildTmp]
  | cons c cs ih =>
    intro tmp
    by_cases hc : df.cols.count c = 1
    · simp only [buildTmp, hc, if_true]
      rw [ih]
      constructor
      · intro hall d hd
        rcases List.mem_cons.mp hd with h1 | h1
        · subst h1; exact hc
        · exact hall d h1
      · intro hall d hd
        exact hall d (by simp [hd])
    · simp only [buildTmp, hc, if_false]
      constructor
      · intro ⟨out, hout⟩; cases hout
      · intro hall; exact absurd (hall c (by simp)) hc

/-- Running the copy loop from a nonempty accumulator appends one column per
requested label, with the cells looked up row by row in the renamed frame. -/
lemma buildTmp_go (df : DF) :
    ∀ (cs : List String) (ns : List String) (F : List Cell → List Cell),
      ns ≠ [] →
      (∀ c ∈ cs, df.cols.count c = 1) →
      (∀ c ∈ cs, backmap c ∉ ns) →
      ((cs.map backmap).Nodup) →
      buildTmp df cs ⟨ns, df.rows.map F⟩
        = .ok ⟨ns ++ cs.map backmap,
               df.rows.map (fun r => F r ++ cs.map (fun c => cellAt df.cols r c))⟩ := by
  intro cs
  induction cs with
  | nil =>
    intro ns F _ _ _ _
    simp [buildTmp]
  | cons c cs ih =>
    intro ns F hne hcount hfresh hnd
    have hc : df.cols.count c = 1 := hcount c (by simp)
    have hbc : backmap c ∉ ns := hfresh c (by simp)
    simp only [buildTmp, hc, if_true]
    have hassign :
        DF.assignSeries ⟨ns, df.rows.map F⟩ (backmap c) (df.getCol c)
          = ⟨ns ++ [backmap c],
             df.rows.map (fun r => F r ++ [cellAt df.cols r c])⟩ := by
      unfold DF.assignSeries DF.getCol
      simp only [isEmpty_eq_false_of_ne_nil hne, Bool.false_eq_true, if_false, hbc]
      congr 1
      rw [List.zip_map' F (fun r => cellAt df.cols r c) df.rows, List.map_map]
      rfl
    rw [hassign]
    have hns2 : ns ++ [backmap c] ≠ [] := by simp
    have hnd2 : (cs.map backmap).Nodup := (List.nodup_cons.mp (by simpa using hnd)).2
    have hfresh2 : ∀ d ∈ cs, backmap d ∉ ns ++ [backmap c] := by
      intro d hd
      have h1 : backmap d ∉ ns := hfresh d (by simp [hd])
      have h2 : backmap c ∉ cs.map backmap := (List.nodup_cons.mp (by simpa using hnd)).1
      have h3 : ¬ backmap d = backmap c := by
        intro he
        exact h2 (he ▸ List.mem_map_of_mem backmap hd)
      simp [h1, h3]
    rw [ih (ns ++ [backmap c]) (fun r => F r ++ [cellAt df.cols r c]) hns2
      (fun d hd => hcount d (by simp [hd])) hfresh2 hnd2]
    simp

/-- Characterization of the whole copy loop started (as in app.py) from the
empty frame, for a nonempty list of present labels. -/
lemma buildTmp_start (df : DF) (c : String) (cs : List String)
    (hcount : ∀ d ∈ c :: cs, df.cols.count d = 1)
    (hnd : ((c :: cs).map backmap).Nodup) :
    buildTmp df (c :: cs) ⟨[], []⟩
      = .ok ⟨(c :: cs).map backmap,
             df.rows.map (fun r => (c :: cs).map (fun d => cellAt df.cols r d))⟩ := by
  have hc : df.cols.count c = 1 := hcount c (by simp)
  simp only [buildTmp, hc, if_true]
  have hassign :
      DF.assignSeries ⟨[], []⟩ (backmap c) (df.getCol c)
        = ⟨[backmap c], df.rows.map (fun r => [cellAt df.cols r c])⟩ := by
    unfold DF.assignSeries DF.getCol
    simp [List.map_map]
  rw [hassign]
  have hfresh : ∀ d ∈ cs, backmap d ∉ [backmap c] := by
    intro d hd
    have h2 : backmap c ∉ cs.map backmap := (List.nodup_cons.mp (by simpa using hnd)).1
    intro hmem
    rcases List.mem_singleton.mp hmem with he
    exact h2 (he ▸ List.mem_map_of_mem backmap hd)
  rw [buildTmp_go df cs [backmap c] (fun r => [cellAt df.cols r c]) (by simp)
    (fun d hd => hcount d (by simp [hd])) hfresh
    (List.nodup_cons.mp (by simpa using hnd)).2]
  simp

/-- Folding scalar assignments of fresh labels appends one constant column
each. -/
lemma fold_assignScalar (v : Cell) :
    ∀ (ms : List String) (t : DF), (∀ m ∈ ms, m ∉ t.cols) → ms.Nodup →
      ms.foldl (fun t2 m => t2.assignScalar m v) t
        = ⟨t.cols ++ ms, t.rows.map (fun r => r ++ ms.map (fun _ => v))⟩ := by
  intro ms
  induction ms with
  | nil =>
    intro t _ _
    simp
  | cons m ms ih =>
    intro t hdisj hnd
    have hm : m ∉ t.cols := hdisj m (by simp)
    have hstep : t.assignScalar m v = ⟨t.cols ++ [m], t.rows.map (fun r => r ++ [v])⟩ := by
      unfold DF.assignScalar
      rw [if_neg hm]
    simp only [List.foldl_cons, hstep]
    rw [ih ⟨t.cols ++ [m], t.rows.map (fun r => r ++ [v])⟩ ?_ (List.nodup_cons.mp hnd).2]
    · simp
    · intro m2 hm2
      have h1 : m2 ∉ t.cols := hdisj m2 (by simp [hm2])
      have h2 : ¬ m2 = m := by
        intro he
        exact (List.nodup_cons.mp hnd).1 (he ▸ hm2)
      simp [h1, h2]

lemma present_norm_sublist (src : DF) :
    List.Sublist (present_norm src) (HEADERS.map normalize_header) :=
  List.filter_sublist _

lemma present_backmap_nodup (src : DF) : ((present_norm src).map backmap).Nodup := by
  have h1 := (present_norm_sublist src).map backmap
  rw [backmap_norm_headers] at h1
  exact HEADERS_nodup.sublist h1

lemma mem_present_iff {src : DF} {c : String} :
    c ∈ present_norm src ↔ c ∈ HEADERS.map normalize_header ∧ c ∈ norm_cols src := by
  simp [present_norm, List.mem_filter]

lemma mem_backmap_present {src : DF} {h2 : String} (hh : h2 ∈ HEADERS) :
    h2 ∈ (present_norm src).map backmap ↔ normalize_header h2 ∈ norm_cols src := by
  constructor
  · intro hmem
    rcases List.mem_map.mp hmem with ⟨c, hc, hbc⟩
    have hc1 := (mem_present_iff.mp hc).1
    have hc2 := (mem_present_iff.mp hc).2
    have he : normalize_header h2 = c := by rw [← hbc, norm_of_backmap c hc1]
    rw [he]; exact hc2
  · intro hmem
    have h1 : normalize_header h2 ∈ HEADERS.map normalize_header :=
      List.mem_map_of_mem _ hh
    have h2m : normalize_header h2 ∈ present_norm src := mem_present_iff.mpr ⟨h1, hmem⟩
    have h3 := List.mem_map_of_mem backmap h2m
    rwa [backmap_of_norm h2 hh] at h3

lemma reconcile_unfold (name : String) (src : DF) :
    reconcile name src =
      match buildTmp ⟨norm_cols src, src.rows⟩ (present_norm src) ⟨[], []⟩ with
      | .error e => .error e
      | .ok tmp0 =>
        .ok ((((HEADERS.filter (fun h => h ∉ tmp0.cols)).foldl
                (fun t m => t.assignScalar m (some "")) tmp0).assignScalar
                  "File name" (some name)).select ORDERED_COLS,
             HEADERS.filter (fun h => h ∉ tmp0.cols)) := rfl

theorem reconcile_ok_spec (name : String) (src : DF) (tmp : DF) (missing : List String)
    (h : reconcile name src = .ok (tmp, missing)) :
    tmp.cols = ORDERED_COLS ∧
    (∀ h2, h2 ∈ missing ↔ (h2 ∈ HEADERS ∧ normalize_header h2 ∉ norm_cols src)) ∧
    (present_norm src = [] → tmp.rows = []) ∧
    (present_norm src ≠ [] → tmp.rows.length = src.rows.length) ∧
    (∀ r ∈ tmp.rows, r.length = ORDERED_COLS.length ∧
        cellAt ORDERED_COLS r "File name" = some name ∧
        ∀ h2 ∈ HEADERS, normalize_header h2 ∉ norm_cols src →
          cellAt ORDERED_COLS r h2 = some "") := by
  rw [reconcile_unfold] at h
  split at h
  · cases h
  · rename_i tmp0 heq
    rcases hps : present_norm src with _ | ⟨c, cs⟩
    · -- empty case
      rw [hps] at heq
      simp only [buildTmp] at heq
      injection heq with heq2
      subst heq2
      dsimp only at h
      rw [show List.filter (fun h2 => decide (h2 ∉ ([] : List String))) HEADERS = HEADERS by simp] at h
      rw [fold_assignScalar (some "") HEADERS ⟨[], []⟩ (by simp) HEADERS_nodup] at h
      rw [show DF.assignScalar ⟨([] : List String) ++ HEADERS, List.map (fun r => r ++ HEADERS.map (fun _ => some "")) []⟩ "File name" (some name)
            = DF.mk (HEADERS ++ ["File name"]) [] from by
          unfold DF.assignScalar
          rw [if_neg (by simpa using filename_not_mem_headers)]
          rfl] at h
      rw [show DF.select ⟨HEADERS ++ ["File name"], []⟩ ORDERED_COLS = DF.mk ORDERED_COLS [] from by
          unfold DF.select
          rfl] at h
      injection h with h3
      injection h3 with htmp hmiss
      subst htmp
      subst hmiss
      have hps' : (HEADERS.map normalize_header).filter (fun h2 => h2 ∈ norm_cols src) = [] := hps
      have hnone : ∀ h2 ∈ HEADERS, normalize_header h2 ∉ norm_cols src := by
        intro h2 hh2 hin
        have hm := List.filter_eq_nil_iff.mp hps' (normalize_header h2) (List.mem_map_of_mem _ hh2)
        simp [hin] at hm
      refine ⟨rfl, ?_, fun _ => rfl, fun hne => absurd rfl hne, ?_⟩
      · intro h2
        exact ⟨fun hm => ⟨hm, hnone h2 hm⟩, fun p => p.1⟩
      · intro r hr
        exact absurd hr (by simp)
    · -- cons case
      rw [hps] at heq
      have hcount : ∀ d ∈ c :: cs, (norm_cols src).count d = 1 :=
        (buildTmp_ok_iff ⟨norm_cols src, src.rows⟩ (c :: cs) ⟨[], []⟩).mp ⟨tmp0, heq⟩
      have hnd : ((c :: cs).map backmap).Nodup := by
        have h4 := present_backmap_nodup src
        rwa [hps] at h4
      rw [buildTmp_start ⟨norm_cols src, src.rows⟩ c cs hcount hnd] at heq
      injection heq with heq2
      subst heq2
      dsimp only at h
      set A := List.map backmap (c :: cs) with hA
      set M := List.filter (fun h2 => decide (h2 ∉ A)) HEADERS with hM
      set G := fun r => List.map (fun d => cellAt (norm_cols src) r d) (c :: cs) with hG
      have hMdisj : ∀ m ∈ M, m ∉ A := by
        intro m hm
        rw [hM] at hm
        exact of_decide_eq_true (List.mem_filter.mp hm).2
      have hMnodup : M.Nodup := by
        rw [hM]
        exact HEADERS_nodup.filter _
      have hMsub : ∀ m ∈ M, m ∈ HEADERS := by
        intro m hm
        rw [hM] at hm
        exact (List.mem_filter.mp hm).1
      have hAsub : ∀ a ∈ A, a ∈ HEADERS := by
        intro a ha
        rw [hA] at ha
        rcases List.mem_map.mp ha with ⟨d, hd, hbd⟩
        have hd2 : d ∈ HEADERS.map normalize_header := by
          have hd3 : d ∈ present_norm src := by rw [hps]; exact hd
          exact (mem_present_iff.mp hd3).1
        exact hbd ▸ backmap_mem_headers d hd2
      have hFN : "File name" ∉ A ++ M := by
        intro hmem
        rcases List.mem_append.mp hmem with hm | hm
        · exact filename_not_mem_headers (hAsub _ hm)
        · exact filename_not_mem_headers (hMsub _ hm)
      have hfold : List.foldl (fun t m => t.assignScalar m (some "")) ⟨A, src.rows.map G⟩ M
          = DF.mk (A ++ M) (src.rows.map (fun r => G r ++ M.map (fun _ => some ""))) := by
        rw [fold_assignScalar (some "") M ⟨A, src.rows.map G⟩ hMdisj hMnodup]
        dsimp only
        rw [List.map_map]
        rfl
      rw [hfold] at h
      have hassign : DF.assignScalar
            (DF.mk (A ++ M) (src.rows.map (fun r => G r ++ M.map (fun _ => some ""))))
            "File name" (some name)
          = DF.mk ((A ++ M) ++ ["File name"])
              (src.rows.map (fun r => (G r ++ M.map (fun _ => some "")) ++ [some name])) := by
        unfold DF.assignScalar
        dsimp only
        rw [if_neg hFN, List.map_map]
        rfl
      rw [hassign] at h
      have hsel : DF.select
            (DF.mk ((A ++ M) ++ ["File name"])
              (src.rows.map (fun r => (G r ++ M.map (fun _ => some "")) ++ [some name])))
            ORDERED_COLS
          = DF.mk ORDERED_COLS
              (src.rows.map (fun r => ORDERED_COLS.map (fun c2 =>
                cellAt ((A ++ M) ++ ["File name"])
                  ((G r ++ M.map (fun _ => some "")) ++ [some name]) c2))) := by
        unfold DF.select
        dsimp only
        rw [List.map_map]
        rfl
      rw [hsel] at h
      injection h with h3
      injection h3 with htmp hmiss
      subst htmp
      subst hmiss
      have hMiff : ∀ h2, h2 ∈ M ↔ (h2 ∈ HEADERS ∧ normalize_header h2 ∉ norm_cols src) := by
        intro h2
        rw [hM]
        simp only [List.mem_filter, decide_eq_true_eq]
        constructor
        · rintro ⟨hh2, hnotA⟩
          refine ⟨hh2, fun hin => hnotA ?_⟩
          rw [hA]
          have h5 := (mem_backmap_present hh2).mpr hin
          rwa [hps] at h5
        · rintro ⟨hh2, hnot⟩
          refine ⟨hh2, fun hinA => hnot ?_⟩
          have h5 : h2 ∈ (present_norm src).map backmap := by
            rw [hps]; exact hA ▸ hinA
          exact (mem_backmap_present hh2).mp h5
      refine ⟨rfl, hMiff, fun hx => absurd hx (by simp), fun _ => by dsimp only; rw [List.length_map], ?_⟩
      intro r hr
      dsimp only at hr
      rcases List.mem_map.mp hr with ⟨rs, hrs, hreq⟩
      subst hreq
      have hlenG : (G rs).length = A.length := by rw [hG, hA]; simp
      refine ⟨by simp, ?_, ?_⟩
      · rw [cellAt_map_labels filename_mem_ordered]
        rw [cellAt_append_right hFN (by simp [hlenG])]
        simp [cellAt, colIdx]
      · intro h2 hh2 hnot
        rw [cellAt_map_labels (show h2 ∈ ORDERED_COLS from List.mem_cons_of_mem _ hh2)]
        have h2M : h2 ∈ M := (hMiff h2).mpr ⟨hh2, hnot⟩
        have h2A : h2 ∉ A := fun hinA => hnot (by
          have h5 : h2 ∈ (present_norm src).map backmap := by
            rw [hps]; exact hA ▸ hinA
          exact (mem_backmap_present hh2).mp h5)
        rw [List.append_assoc A M ["File name"],
          List.append_assoc (G rs) (M.map (fun _ => some "")) [some name]]
        rw [cellAt_append_right h2A hlenG]
        rw [cellAt_append_left h2M (by simp)]
        exact cellAt_map_labels h2M

/-- Reconciliation succeeds exactly when no canonical column name is hit by
two distinct raw headers: every normalized canonical header occurs at most
once among the file's normalized headers. -/
lemma reconcile_ok_iff (name : String) (src : DF) :
    (∃ out, reconcile name src = .ok out) ↔
      ∀ h2 ∈ HEADERS, (norm_cols src).count (normalize_header h2) ≤ 1 := by
  have hmain : (∃ out, reconcile name src = .ok out) ↔
      ∀ c ∈ present_norm src, (norm_cols src).count c = 1 := by
    rw [reconcile_unfold]
    have hiff := buildTmp_ok_iff ⟨norm_cols src, src.rows⟩ (present_norm src) ⟨[], []⟩
    cases hb : buildTmp ⟨norm_cols src, src.rows⟩ (present_norm src) ⟨[], []⟩ with
    | error e =>
      rw [hb] at hiff
      simp only [hb]
      constructor
      · rintro ⟨out, hout⟩
        cases hout
      · intro hall
        rcases hiff.mpr hall with ⟨out, hout⟩
        cases hout
    | ok tmp0 =>
      rw [hb] at hiff
      simp only [hb]
      constructor
      · intro _
        exact hiff.mp ⟨tmp0, rfl⟩
      · intro _
        exact ⟨_, rfl⟩
  rw [hmain]
  constructor
  · intro hall h2 hh2
    by_cases hin : normalize_header h2 ∈ norm_cols src
    · rw [hall _ (mem_present_iff.mpr ⟨List.mem_map_of_mem _ hh2, hin⟩)]
    · rw [List.count_eq_zero_of_not_mem hin]
      exact Nat.zero_le 1
  · intro hle c hc
    rcases mem_present_iff.mp hc with ⟨hcn, hcin⟩
    rcases List.mem_map.mp hcn with ⟨h2, hh2, hnorm⟩
    have h1 : 0 < (norm_cols src).count c := List.count_pos_iff.mpr hcin
    have hb : (norm_cols src).count c ≤ 1 := hnorm ▸ hle h2 hh2
    omega

/-! ## Lemmas about validation and the whole per-file body -/

lemma process_file_unfold (name : String) (src : DF) :
    process_file name src =
      match reconcile name src with
      | .error e => .error e
      | .ok (tmp, missing) => .ok ((validate tmp).1, missing, (validate tmp).2) := rfl

/-- A successfully processed file yields a validated frame with exactly the
consolidated columns and well-formed rows. -/
lemma process_file_ok_spec (name : String) (src : DF) (tv : DF)
    (missing : List String) (removed : Nat)
    (h : process_file name src = .ok (tv, missing, removed)) :
    tv.cols = ORDERED_COLS ∧ (∀ r ∈ tv.rows, r.length = ORDERED_COLS.length) := by
  rw [process_file_unfold] at h
  split at h
  · cases h
  · rename_i tmp missing0 heq
    injection h with h3
    injection h3 with htv h4
    injection h4 with hmiss hrem
    subst htv
    have hspec := reconcile_ok_spec name src tmp missing0 heq
    constructor
    · show (trim_text_df tmp).cols = ORDERED_COLS
      show tmp.cols = ORDERED_COLS
      exact hspec.1
    · intro r hr
      have hr2 : r ∈ (trim_text_df tmp).rows.filter
          (fun r2 => mask_valid (cellAt (trim_text_df tmp).cols r2 "NUMERO OBRA ICONSTRUYE")) := hr
      have hr3 := (List.mem_filter.mp hr2).1
      rcases List.mem_map.mp hr3 with ⟨r0, hr0, hreq⟩
      subst hreq
      rw [List.length_map]
      exact ((hspec.2.2.2.2) r0 hr0).1

/-- A file whose normalized headers lack the required column loses every row
at validation: the reconciled rows all carry "" there, which `mask_valid`
rejects. -/
lemma process_file_required_missing (name : String) (src : DF)
    (hmiss : "NUMERO OBRA ICONSTRUYE" ∉ norm_cols src) :
    ∀ tv missing removed, process_file name src = .ok (tv, missing, removed) →
      tv.rows = [] := by
  intro tv missing removed h
  rw [process_file_unfold] at h
  split at h
  · cases h
  · rename_i tmp missing0 heq
    injection h with h3
    injection h3 with htv h4
    subst htv
    have hspec := reconcile_ok_spec name src tmp missing0 heq
    have hreq : ∀ r ∈ tmp.rows, cellAt ORDERED_COLS r "NUMERO OBRA ICONSTRUYE" = some "" := by
      intro r hr
      exact ((hspec.2.2.2.2) r hr).2.2 "NUMERO OBRA ICONSTRUYE" (by decide)
        (by rw [show normalize_header "NUMERO OBRA ICONSTRUYE" = "NUMERO OBRA ICONSTRUYE" from by decide]; exact hmiss)
    show (trim_text_df tmp).rows.filter
        (fun r2 => mask_valid (cellAt (trim_text_df tmp).cols r2 "NUMERO OBRA ICONSTRUYE")) = []
    rw [List.filter_eq_nil_iff]
    intro r hr
    rcases List.mem_map.mp hr with ⟨r0, hr0, hreq2⟩
    subst hreq2
    have hcols : (trim_text_df tmp).cols = ORDERED_COLS := hspec.1
    have hcell : cellAt (trim_text_df tmp).cols
        (r0.map (fun x => some (pyStrip (astypeStr x)))) "NUMERO OBRA ICONSTRUYE"
        = some (pyStrip (astypeStr (cellAt ORDERED_COLS r0 "NUMERO OBRA ICONSTRUYE"))) := by
      rw [show (trim_text_df tmp).cols = tmp.cols from rfl, hspec.1]
      rw [cellAt_map_row required_mem_ordered (((hspec.2.2.2.2) r0 hr0).1)]
    rw [hcell, hreq r0 hr0]
    simp [mask_valid, astypeStr, pyStrip]

/-! ## Lemmas about the batch loop -/

lemma df_out_init_eq : df_out_init = ⟨HEADERS ++ ["File name"], []⟩ := by
  simp [df_out_init, DF.assignScalar, filename_not_mem_headers]

lemma acc_cols_nodup : (HEADERS ++ ["File name"]).Nodup := by decide

/-- Each row a file contributes is laid out along the accumulator's columns. -/
lemma file_rows_wf (n : String) (out : ReadOutcome) :
    ∀ r ∈ file_rows n out, r.length = (HEADERS ++ ["File name"]).length := by
  cases out with
  | err e => intro r hr; exact absurd hr (by simp [file_rows])
  | ok src =>
    intro r hr
    simp only [file_rows, file_contribution] at hr
    split at hr
    · exact absurd hr (by simp)
    · rcases List.mem_map.mp hr with ⟨r0, _, hreq⟩
      subst hreq
      simp

/-- One loop iteration appends the file's surviving rows to the accumulator
and the file's diagnostic lines to the log. -/
lemma step_file_eq (d : DF) (l : List String) (f : String × ReadOutcome)
    (hcols : d.cols = HEADERS ++ ["File name"])
    (hwf : ∀ r ∈ d.rows, r.length = (HEADERS ++ ["File name"]).length) :
    step_file (d, l) f
      = (⟨HEADERS ++ ["File name"], d.rows ++ file_rows f.1 f.2⟩, l ++ file_log f.1 f.2) := by
  rcases f with ⟨n, out⟩
  have hd : d = ⟨HEADERS ++ ["File name"], d.rows⟩ := by rw [← hcols]
  cases out with
  | err e =>
    show (d, l ++ [n ++ ": ERROR al procesar -> " ++ e]) = _
    rw [show file_rows n (.err e) = [] from rfl, List.append_nil]
    rw [show file_log n (.err e) = [n ++ ": ERROR al procesar -> " ++ e] from rfl]
    rw [← hd]
  | ok src =>
    show (match process_file n src with
      | .error e => (d, l ++ [n ++ ": ERROR al procesar -> " ++ e])
      | .ok (tv, missing, removed) =>
        let log1 := if 0 < removed then
            l ++ [n ++ ": " ++ toString removed ++ " filas descartadas sin NUMERO OBRA ICONSTRUYE"]
          else l
        let d2 := pd_concat d tv
        let log2 := if missing = [] then log1
          else log1 ++ [n ++ ": faltan columnas -> " ++ String.intercalate ", " missing]
        (d2, log2)) = _
    cases hp : process_file n src with
    | error e =>
      simp only [hp]
      rw [show file_rows n (.ok src) = [] from by simp [file_rows, file_contribution, hp]]
      rw [show file_log n (.ok src) = [n ++ ": ERROR al procesar -> " ++ e] from by
        simp [file_log, hp]]
      rw [List.append_nil]
      rw [← hd]
    | ok res =>
      rcases res with ⟨tv, missing, removed⟩
      have htv := process_file_ok_spec n src tv missing removed hp
      simp only [hp]
      have hcontrib : file_rows n (.ok src)
          = tv.rows.map (fun r => (HEADERS ++ ["File name"]).map (alignRow ORDERED_COLS r)) := by
        simp only [file_rows, file_contribution, hp, htv.1]
      have hid : d.rows.map
          (fun r => (HEADERS ++ ["File name"]).map (alignRow (HEADERS ++ ["File name"]) r))
          = d.rows := by
        have hstep : ∀ r ∈ d.rows,
            (HEADERS ++ ["File name"]).map (alignRow (HEADERS ++ ["File name"]) r) = r := by
          intro r hr
          exact map_alignRow_self acc_cols_nodup (hwf r hr)
        exact (List.map_congr_left hstep).trans (List.map_id _)
      have hconcat : pd_concat d tv
          = ⟨HEADERS ++ ["File name"], d.rows ++ file_rows n (.ok src)⟩ := by
        unfold pd_concat
        rw [hcols, htv.1]
        dsimp only
        rw [show ORDERED_COLS.filter (fun c => !((HEADERS ++ ["File name"]).contains c)) = []
          from by decide]
        rw [List.append_nil, hcontrib, hid]
      rw [hconcat]
      rw [show file_log n (.ok src)
          = (if 0 < removed then
              [n ++ ": " ++ toString removed ++ " filas descartadas sin NUMERO OBRA ICONSTRUYE"]
            else [])
          ++ (if missing = [] then []
              else [n ++ ": faltan columnas -> " ++ String.intercalate ", " missing]) from by
        simp [file_log, hp]]
      by_cases hrem : 0 < removed <;> by_cases hm : missing = [] <;>
        simp [hrem, hm, List.append_assoc]

/-- The whole batch loop from any well-formed accumulator state. -/
lemma run_batch_go :
    ∀ (files : List (String × ReadOutcome)) (d : DF) (l : List String),
      d.cols = HEADERS ++ ["File name"] →
      (∀ r ∈ d.rows, r.length = (HEADERS ++ ["File name"]).length) →
      List.foldl step_file (d, l) files
        = (⟨HEADERS ++ ["File name"],
            d.rows ++ files.flatMap (fun f => file_rows f.1 f.2)⟩,
           l ++ files.flatMap (fun f => file_log f.1 f.2)) := by
  intro files
  induction files with
  | nil =>
    intro d l hcols hwf
    cases d
    simp only [DF.mk.injEq] at hcols ⊢
    simp [hcols]
  | cons f fs ih =>
    intro d l hcols hwf
    rw [List.foldl_cons, step_file_eq d l f hcols hwf]
    rw [ih ⟨HEADERS ++ ["File name"], d.rows ++ file_rows f.1 f.2⟩
      (l ++ file_log f.1 f.2) rfl ?_]
    · simp
    · intro r hr
      rcases List.mem_append.mp hr with hr1 | hr1
      · exact hwf r hr1
      · exact file_rows_wf f.1 f.2 r hr1

/-- Closed form of the batch driver: the consolidated frame carries the
columns `HEADERS ++ ["File name"]` and the concatenation, in file order, of
every file's surviving rows; the log is the concatenation of every file's
diagnostic lines. -/
lemma run_batch_eq (files : List (String × ReadOutcome)) :
    run_batch files
      = (⟨HEADERS ++ ["File name"], files.flatMap (fun f => file_rows f.1 f.2)⟩,
         files.flatMap (fun f => file_log f.1 f.2)) := by
  unfold run_batch
  rw [df_out_init_eq, run_batch_go files ⟨HEADERS ++ ["File name"], []⟩ [] rfl (by simp)]
  simp

/-! ## Claim C1 -/

/-- C1: for a batch of one file, the consolidated frame's columns and the
exported header row come out as the canonical headers followed by "File name"
— the provenance column is LAST, not first: the accumulator is initialised
with the provenance column appended after the canonical headers, and
pd.concat keeps the first frame's column order, overriding the
[provenance-first] `ORDERED_COLS` layout each per-file frame was given. -/
theorem C1_export_header_order :
    (run_batch [("f1.csv", .ok ⟨["NUMERO OBRA ICONSTRUYE"], [[some "OB-1"]]⟩)]).1.cols
      = HEADERS ++ ["File name"] ∧
    (excel_to_bytes
        (run_batch [("f1.csv", .ok ⟨["NUMERO OBRA ICONSTRUYE"], [[some "OB-1"]]⟩)]).1).header
      = HEADERS ++ ["File name"] ∧
    HEADERS ++ ["File name"] ≠ ORDERED_COLS :=
  ⟨rfl, rfl, by decide⟩

/-! ## Claim C2 -/

/-- C2: a row whose required cell is missing (NaN) survives validation:
`trim_text_df`'s astype(str) turns the NaN into the literal string "nan"
before the notna() part of `mask_valid` runs, so notna() is vacuously true
and the row is kept with required value "nan", with zero rows reported as
removed — where the specification (and the notna() guard itself) expect the
row to be discarded. -/
theorem C2_nan_row_kept :
    process_file "f.csv" ⟨["NUMERO OBRA ICONSTRUYE"], [[none]]⟩
      = .ok (⟨ORDERED_COLS, [some "f.csv" :: some "nan" :: List.replicate 9 (some "")]⟩,
             HEADERS.tail, 0) := rfl

/-! ## Claim C3 -/

/-- C3 counterexample: a source table with the two distinct raw headers
"NUMERO OBRA ICONSTRUYE" and " NUMERO OBRA ICONSTRUYE" (equal after
normalization) makes reconciliation FAIL — selecting the duplicated
normalized label is an error and the file is skipped — rather than being
processed normally with a last-wins choice as the claim states. -/
theorem C3_counterexample :
    reconcile "f.csv"
        ⟨["NUMERO OBRA ICONSTRUYE", " NUMERO OBRA ICONSTRUYE"], [[some "a", some "b"]]⟩
      = .error
          "Cannot set a DataFrame with multiple columns to the single column NUMERO OBRA ICONSTRUYE" :=
  rfl

/-- C3 (amended): the rename map built by the code is original-header →
normalized-header (collision-free); reconciliation succeeds exactly when no
canonical column name is reached by two distinct raw headers, i.e. every
normalized canonical header occurs at most once among the file's normalized
headers — collisions on non-canonical names are harmless, while a collision
on a canonical name raises and the file is skipped by the per-file handler. -/
theorem C3_collision_policy (name : String) (src : DF) :
    (∃ out, reconcile name src = .ok out) ↔
      ∀ h2 ∈ HEADERS, (norm_cols src).count (normalize_header h2) ≤ 1 :=
  reconcile_ok_iff name src

/-- Witness for C3 (amended) at a concrete input: a collision on the
non-canonical header "X" (raw headers "X" and " X") does not make
reconciliation fail. -/
theorem C3_witness :
    ∃ out, reconcile "f.csv"
        ⟨["X", " X", "NUMERO OBRA ICONSTRUYE"], [[some "a", some "b", some "c"]]⟩
      = .ok out :=
  (C3_collision_policy "f.csv"
      ⟨["X", " X", "NUMERO OBRA ICONSTRUYE"], [[some "a", some "b", some "c"]]⟩).mpr
    (by decide)

/-! ## Claim C4 -/

/-- C4 counterexample: a one-row source table none of whose headers is
canonical reconciles to a frame with ZERO rows — the input row vanishes —
because the per-file frame is rebuilt column by column and a scalar
assignment to a frame with no columns creates no rows. -/
theorem C4_counterexample :
    (DF.mk ["X"] [[some "v"]]).rows.length = 1 ∧
    reconcile "f.csv" ⟨["X"], [[some "v"]]⟩ = .ok (⟨ORDERED_COLS, []⟩, HEADERS) :=
  ⟨rfl, rfl⟩

/-- C4 (amended): reconciliation maps every input row to exactly one output
row whenever at least one canonical column is present in the input (by
normalized header); when no canonical column is present, the reconciled frame
has zero rows regardless of the input row count. -/
theorem C4_row_preservation (name : String) (src : DF) (tmp : DF) (missing : List String)
    (h : reconcile name src = .ok (tmp, missing)) :
    (present_norm src ≠ [] → tmp.rows.length = src.rows.length) ∧
    (present_norm src = [] → tmp.rows = []) :=
  ⟨(reconcile_ok_spec name src tmp missing h).2.2.2.1,
   (reconcile_ok_spec name src tmp missing h).2.2.1⟩

/-- Witness for C4 (amended): a two-row file with the required column present
reconciles to exactly two rows. -/
theorem C4_witness :
    (DF.mk ORDERED_COLS
        [some "f.csv" :: some "x" :: List.replicate 9 (some ""),
         some "f.csv" :: some "y" :: List.replicate 9 (some "")]).rows.length
      = (DF.mk ["NUMERO OBRA ICONSTRUYE"] [[some "x"], [some "y"]]).rows.length :=
  (C4_row_preservation "f.csv" ⟨["NUMERO OBRA ICONSTRUYE"], [[some "x"], [some "y"]]⟩
      ⟨ORDERED_COLS,
        [some "f.csv" :: some "x" :: List.replicate 9 (some ""),
         some "f.csv" :: some "y" :: List.replicate 9 (some "")]⟩
      HEADERS.tail rfl).1 (by decide)

/-! ## Claim C5 -/

lemma names_file_self_bad (e : String) :
    names_file "bad" ("bad: ERROR al procesar -> " ++ e) = true := by
  cases e
  rfl

lemma names_file_good1_false (x : String) : names_file "bad" ("good1" ++ x) = false := by
  cases x
  rfl

lemma names_file_good2_false (x : String) : names_file "bad" ("good2" ++ x) = false := by
  cases x
  rfl

/-- Every diagnostic line of one file starts with that file's name. -/
lemma file_log_prefixed (n : String) (out : ReadOutcome) :
    ∀ l ∈ file_log n out, ∃ x, l = n ++ x := by
  intro l hl
  cases out with
  | err e =>
    have he := List.mem_singleton.mp hl
    exact ⟨": ERROR al procesar -> " ++ e, by rw [he, String.append_assoc]⟩
  | ok src =>
    simp only [file_log] at hl
    split at hl
    · have he := List.mem_singleton.mp hl
      exact ⟨_, by rw [he, String.append_assoc]⟩
    · rename_i tv missing removed heq
      rcases List.mem_append.mp hl with h1 | h1
      · split at h1
        · have he := List.mem_singleton.mp h1
          exact ⟨": " ++ toString removed ++ " filas descartadas sin NUMERO OBRA ICONSTRUYE",
            by rw [he]; simp [String.append_assoc]⟩
        · exact absurd h1 (by simp)
      · split at h1
        · exact absurd h1 (by simp)
        · have he := List.mem_singleton.mp h1
          exact ⟨_, by rw [he, String.append_assoc]⟩

/-- A file whose name cannot prefix a "bad:"-named line contributes no line
naming "bad". -/
lemma countP_names_zero (n : String) (out : ReadOutcome)
    (hfl : ∀ x : String, names_file "bad" (n ++ x) = false) :
    (file_log n out).countP (fun l => names_file "bad" l) = 0 := by
  rw [List.countP_eq_zero]
  intro l hl
  rcases file_log_prefixed n out l hl with ⟨x, hx⟩
  simp [hx, hfl x]

/-- C5: in every batch, a file whose read raises leaves the consolidated
frame exactly as if the file were absent (processing continues with the
remaining files); in particular for [good1, bad, good2] where bad raises
during ingestion, the consolidated frame equals the one produced by
[good1, good2], its rows are rows(good1) ++ rows(good2), and the log holds
exactly one line naming bad. -/
theorem C5_partial_failure (a c : DF) (e : String) :
    (∀ (files1 files2 : List (String × ReadOutcome)) (n msg : String),
      (run_batch (files1 ++ (n, .err msg) :: files2)).1
        = (run_batch (files1 ++ files2)).1) ∧
    (run_batch [("good1", .ok a), ("bad", .err e), ("good2", .ok c)]).1
      = (run_batch [("good1", .ok a), ("good2", .ok c)]).1 ∧
    (run_batch [("good1", .ok a), ("bad", .err e), ("good2", .ok c)]).1.rows
      = file_contribution "good1" a ++ file_contribution "good2" c ∧
    ((run_batch [("good1", .ok a), ("bad", .err e), ("good2", .ok c)]).2).countP
        (fun l => names_file "bad" l) = 1 := by
  refine ⟨?_, ?_, ?_, ?_⟩
  · intro files1 files2 n msg
    simp only [run_batch_eq]
    simp [file_rows]
  · simp only [run_batch_eq]
    simp [file_rows]
  · simp only [run_batch_eq]
    simp [file_rows]
  · simp only [run_batch_eq]
    simp only [List.flatMap_cons, List.flatMap_nil, List.append_nil]
    rw [List.countP_append, List.countP_append]
    rw [countP_names_zero "good1" (.ok a) names_file_good1_false,
      countP_names_zero "good2" (.ok c) names_file_good2_false]
    simp [file_log, names_file_self_bad e]

/-! ## Claim C6 -/

/-- C6: every successfully reconciled frame has exactly the columns
`["File name"] ++ HEADERS` (the canonical count plus one, extraneous input
columns silently dropped); a canonical header is in the missing list exactly
when its normalized form is absent from the file's normalized headers, and
every missing column holds "" in every reconciled row. -/
theorem C6_reconciled_schema (name : String) (src : DF) (tmp : DF) (missing : List String)
    (h : reconcile name src = .ok (tmp, missing)) :
    tmp.cols = ORDERED_COLS ∧
    (∀ h2, h2 ∈ missing ↔ (h2 ∈ HEADERS ∧ normalize_header h2 ∉ norm_cols src)) ∧
    (∀ r ∈ tmp.rows, ∀ h2 ∈ missing, cellAt ORDERED_COLS r h2 = some "") := by
  have hs := reconcile_ok_spec name src tmp missing h
  refine ⟨hs.1, hs.2.1, ?_⟩
  intro r hr h2 hh2
  have h3 := (hs.2.1 h2).mp hh2
  exact ((hs.2.2.2.2) r hr).2.2 h2 h3.1 h3.2

/-- Witness for C6 at a concrete one-column file: columns come out as
`ORDERED_COLS`, the missing list is every canonical header but the required
one, and the missing cells all hold "". -/
theorem C6_witness :
    (DF.mk ORDERED_COLS [some "f.csv" :: some "x" :: List.replicate 9 (some "")]).cols
      = ORDERED_COLS ∧
    (∀ h2, h2 ∈ HEADERS.tail ↔
      (h2 ∈ HEADERS ∧
        normalize_header h2 ∉ norm_cols (DF.mk ["NUMERO OBRA ICONSTRUYE"] [[some "x"]]))) ∧
    (∀ r ∈ (DF.mk ORDERED_COLS [some "f.csv" :: some "x" :: List.replicate 9 (some "")]).rows,
      ∀ h2 ∈ HEADERS.tail, cellAt ORDERED_COLS r h2 = some "") :=
  C6_reconciled_schema "f.csv" ⟨["NUMERO OBRA ICONSTRUYE"], [[some "x"]]⟩
    ⟨ORDERED_COLS, [some "f.csv" :: some "x" :: List.replicate 9 (some "")]⟩
    HEADERS.tail rfl

/-! ## Claim C7 -/

/-- C7: the accumulator starts with no rows; concatenating two frames with
the same (duplicate-free) column schema yields the first frame's rows
followed by the second frame's rows under the same schema (no reordering, no
deduplication); and a batch [A, B] consolidates to rows(A) ++ rows(B) in file
order. -/
theorem C7_accumulator :
    df_out_init.rows = [] ∧
    (∀ a b : DF, b.cols = a.cols → a.cols.Nodup →
      (∀ r ∈ a.rows, r.length = a.cols.length) →
      (∀ r ∈ b.rows, r.length = b.cols.length) →
      (pd_concat a b).cols = a.cols ∧ (pd_concat a b).rows = a.rows ++ b.rows) ∧
    (∀ (nA nB : String) (A B : DF),
      (run_batch [(nA, .ok A), (nB, .ok B)]).1.rows
        = file_contribution nA A ++ file_contribution nB B) := by
  refine ⟨rfl, ?_, ?_⟩
  · intro a b hba hnd hwfa hwfb
    have hnil : b.cols.filter (fun c2 => !(a.cols.contains c2)) = [] := by
      rw [List.filter_eq_nil_iff]
      intro x hx
      rw [hba] at hx
      simp [List.contains, List.elem_eq_mem, hx]
    constructor
    · show a.cols ++ b.cols.filter (fun c2 => !(a.cols.contains c2)) = a.cols
      rw [hnil, List.append_nil]
    · show a.rows.map (fun r =>
          (a.cols ++ b.cols.filter (fun c2 => !(a.cols.contains c2))).map (alignRow a.cols r))
        ++ b.rows.map (fun r =>
          (a.cols ++ b.cols.filter (fun c2 => !(a.cols.contains c2))).map (alignRow b.cols r))
        = a.rows ++ b.rows
      rw [hnil, List.append_nil]
      congr 1
      · exact (List.map_congr_left
          (fun r hr => map_alignRow_self hnd (hwfa r hr))).trans (List.map_id _)
      · have hstep : ∀ r ∈ b.rows, a.cols.map (alignRow b.cols r) = r := by
          intro r hr
          rw [← hba]
          exact map_alignRow_self (by rw [hba]; exact hnd) (hwfb r hr)
        exact (List.map_congr_left hstep).trans (List.map_id _)
  · intro nA nB A B
    simp only [run_batch_eq]
    simp [file_rows]

/-- Witness for C7's append clause at concrete one-row frames over the
consolidated schema. -/
theorem C7_witness :
    (pd_concat ⟨HEADERS ++ ["File name"], [List.replicate 11 (some "r1")]⟩
        ⟨HEADERS ++ ["File name"], [List.replicate 11 (some "r2")]⟩).rows
      = [List.replicate 11 (some "r1")] ++ [List.replicate 11 (some "r2")] :=
  (C7_accumulator.2.1 ⟨HEADERS ++ ["File name"], [List.replicate 11 (some "r1")]⟩
      ⟨HEADERS ++ ["File name"], [List.replicate 11 (some "r2")]⟩
      rfl (by decide) (by decide) (by decide)).2

/-! ## Claim C10 -/

/-- C10: a file whose normalized headers do not include the required column
"NUMERO OBRA ICONSTRUYE" contributes zero rows to the consolidated output;
whenever it reconciles successfully, the required column is created holding
"" in every reconciled row, so every reconciled row fails validation. -/
theorem C10_required_missing (name : String) (src : DF)
    (hmiss : "NUMERO OBRA ICONSTRUYE" ∉ norm_cols src) :
    file_contribution name src = [] ∧
    (∀ tmp missing, reconcile name src = .ok (tmp, missing) →
      ∀ r ∈ tmp.rows, cellAt ORDERED_COLS r "NUMERO OBRA ICONSTRUYE" = some "") := by
  constructor
  · unfold file_contribution
    cases hp : process_file name src with
    | error e => rfl
    | ok res =>
      obtain ⟨tv, missing, removed⟩ := res
      have h0 := process_file_required_missing name src hmiss tv missing removed hp
      simp [h0]
  · intro tmp missing h r hr
    have hs := reconcile_ok_spec name src tmp missing h
    refine ((hs.2.2.2.2) r hr).2.2 _ (by decide) ?_
    rw [show normalize_header "NUMERO OBRA ICONSTRUYE" = "NUMERO OBRA ICONSTRUYE" from by decide]
    exact hmiss

/-- Witness for C10: a one-row file carrying only "MES (MMM-AA)" (required
column absent) contributes no row. -/
theorem C10_witness :
    file_contribution "f.csv" ⟨["MES (MMM-AA)"], [[some "v"]]⟩ = [] :=
  (C10_required_missing "f.csv" ⟨["MES (MMM-AA)"], [[some "v"]]⟩ (by decide)).1

end App
